import Mathlib

/-!
Shallow embedding of the stroke-to-graph vectorization engine of the
bimshady repository (Vue component, `src/unnamed/part_002`).

Coordinates are embedded as rationals.  The JavaScript code compares
Euclidean distances (`Math.sqrt`) and cosines of angles (`Math.acos`)
only through order comparisons, and `Math.sqrt` is strictly monotone on
nonnegative inputs, so every such comparison is embedded as the
equivalent comparison of squared quantities, which is exact over ℚ:

* `distance(p, q) < d` (with `d ≥ 0`) becomes `distSq p q < d ^ 2`;
* `areColinear` tests `|180° − acosDeg(dot / (m1 * m2))| ≤ tol`, which
  for `0 ≤ tol < 90°` is equivalent to `dot ≤ −cos(tol°) * m1 * m2`,
  i.e. to `dot ≤ 0 ∧ dot ^ 2 ≥ cos²(tol°) * m1² * m2²`.  The irrational
  constant `cos²(tol°)` is therefore a parameter `c2` of the embedding
  (the source default `tol = 10°` corresponds to `c2 = cos² 10° ≈ 0.9698`);
* the `atan2`-based axis classification of an edge with direction
  `(dx, dy)` is near-horizontal iff `|dy| ≤ |dx| * tan(tol°)` and
  near-vertical iff `|dx| ≤ |dy| * tan(tol°)`; the irrational constant
  `tan(tol°)` is a parameter `t` (the source `tol = 10°` corresponds to
  `t = tan 10° ≈ 0.1763`).
-/

namespace Bimshady

/-- A 2-D point, `{x, y}` in the source. -/
structure Point where
  x : ℚ
  y : ℚ
deriving DecidableEq, Repr

/-- Default point used for out-of-range list reads (theorems always
supply in-range indices). -/
def pzero : Point := ⟨0, 0⟩

/-- Squared Euclidean distance.  The source computes
`Math.sqrt((p1.x-p2.x)**2 + (p1.y-p2.y)**2)` and only compares it, so
the square is the faithful exact embedding. -/
def distSq (p q : Point) : ℚ :=
  (p.x - q.x) * (p.x - q.x) + (p.y - q.y) * (p.y - q.y)

/-- `areColinear(p1, p2, p3, angleTolerance)` from the source: the angle
at `p2` between the vectors to `p1` and to `p3` is within
`angleTolerance` of 180°, with zero-length vectors treated as colinear.
`c2` stands for `cos²(angleTolerance°)` (see the file header). -/
def areColinear (c2 : ℚ) (p1 p2 p3 : Point) : Bool :=
  let v1x := p1.x - p2.x
  let v1y := p1.y - p2.y
  let v2x := p3.x - p2.x
  let v2y := p3.y - p2.y
  let mag1Sq := v1x * v1x + v1y * v1y
  let mag2Sq := v2x * v2x + v2y * v2y
  if mag1Sq = 0 ∨ mag2Sq = 0 then
    true
  else
    let dotProduct := v1x * v2x + v1y * v2y
    decide (dotProduct ≤ 0 ∧ c2 * mag1Sq * mag2Sq ≤ dotProduct * dotProduct)

/-- The loop body of `removeColinearPoints`: `prev` is the last point
already pushed to `cleaned`; the list argument is the remaining raw
points `points[i], points[i+1], …, points[n-1]`.  The final point is
pushed unconditionally, interior points only when not colinear with
`prev` and the next raw point. -/
def rcpAux (c2 : ℚ) (prev : Point) : List Point → List Point
  | [] => []
  | current :: rest =>
    if rest.isEmpty then [current]
    else if areColinear c2 prev current (rest.headD pzero) then
      rcpAux c2 prev rest
    else
      current :: rcpAux c2 current rest

/-- `removeColinearPoints(points, angleTolerance)` from the source
(StrokeSimplifier).  Inputs of length ≤ 2 are returned unchanged;
otherwise the first point is kept and the loop runs over the interior. -/
def removeColinearPoints (c2 : ℚ) (points : List Point) : List Point :=
  if points.length ≤ 2 then points
  else
    match points with
    | [] => []
    | p0 :: rest => p0 :: rcpAux c2 p0 rest

/-! ### GraphBuilder (`createWallGraph`, lines 446-549 of the source) -/

/-- The merge radius hard-coded in `createWallGraph`
(`const mergeDistance = 40 // pixels`). -/
def mergeDistance : ℚ := 40

/-- `graph.nodes.findIndex(n => distance(n, p) < mergeDistance)` from the
source, with the distance comparison squared (see the file header).
Returns the index of the first node strictly within `mergeDistance`. -/
def findNode (p : Point) : List Point → Option ℕ
  | [] => none
  | n :: rest =>
    if distSq n p < mergeDistance * mergeDistance then some 0
    else (findNode p rest).map (· + 1)

/-- Node resolution for a candidate endpoint: reuse the first node within
`mergeDistance`, otherwise append the point as a new node.  Returns the
assigned index together with the (possibly extended) node list. -/
def addPoint (nodes : List Point) (p : Point) : ℕ × List Point :=
  match findNode p nodes with
  | some i => (i, nodes)
  | none => (nodes.length, nodes ++ [p])

/-- Build state of `createWallGraph`: the graph under construction plus,
for specification purposes only, the record of every `(raw point, assigned
node index)` resolution the builder performed (the values `idx1`, `idx2`
in the source).  `assigns` is pure instrumentation: `nodes` and `edges`
never depend on it. -/
structure BuildState where
  nodes : List Point
  edges : List (ℕ × ℕ)
  assigns : List (Point × ℕ)
deriving DecidableEq, Repr

/-- One iteration of the inner loop of `createWallGraph`: resolve both
endpoints of the candidate segment `p1p2`, then push the edge unless it
is a self-loop. -/
def addSegment (s : BuildState) (p1 p2 : Point) : BuildState :=
  let r1 := addPoint s.nodes p1
  let r2 := addPoint r1.2 p2
  { nodes := r2.2
    edges := if r1.1 ≠ r2.1 then s.edges ++ [(r1.1, r2.1)] else s.edges
    assigns := s.assigns ++ [(p1, r1.1), (p2, r2.1)] }

/-- The inner loop over consecutive pairs of one stroke's cleaned points
(`for (let i = 0; i < cleanedPoints.length - 1; i++)`); both endpoints
are re-resolved at every iteration, exactly as in the source. -/
def addStrokePairs (s : BuildState) : List Point → BuildState
  | p1 :: rest =>
    match rest with
    | [] => s
    | p2 :: _ => addStrokePairs (addSegment s p1 p2) rest
  | [] => s

/-- The node/edge construction phase of `createWallGraph` (before axis
snapping): each stroke is simplified by `removeColinearPoints` and its
consecutive cleaned pairs become candidate edges. -/
def buildGraph (c2 : ℚ) (strokes : List (List Point)) : BuildState :=
  strokes.foldl (fun s stroke => addStrokePairs s (removeColinearPoints c2 stroke)) ⟨[], [], []⟩

/-! ### AxisRectifier (the snap pass of `createWallGraph`, lines 496-533) -/

/-- Near-horizontal classification of an edge direction `(dx, dy)`:
the source computes `atan2(dy, dx)`, normalizes to `[0°, 360°)` and
tests closeness to 0°/180° within `snapTolerance`; for a tolerance
below 45° this is equivalent to `|dy| ≤ |dx| * tan(snapTolerance°)`,
with the `atan2(0, 0) = 0` convention making a degenerate direction
near-horizontal.  `t` stands for `tan(snapTolerance°)`. -/
def isNearHorizontal (t dx dy : ℚ) : Bool :=
  decide (|dy| ≤ |dx| * t)

/-- Near-vertical classification, the symmetric test against 90°/270°. -/
def isNearVertical (t dx dy : ℚ) : Bool :=
  decide (|dx| ≤ |dy| * t)

/-- One iteration of the snap loop: fetch the edge's two endpoint nodes,
classify the direction, and overwrite both nodes with the averaged
coordinate (horizontal checked first, as in the source `if/else if`). -/
def rectifyStep (t : ℚ) (nodes : List Point) (e : ℕ × ℕ) : List Point :=
  let n1 := nodes.getD e.1 pzero
  let n2 := nodes.getD e.2 pzero
  let dx := n2.x - n1.x
  let dy := n2.y - n1.y
  if isNearHorizontal t dx dy then
    let avgY := (n1.y + n2.y) / 2
    (nodes.set e.1 ⟨n1.x, avgY⟩).set e.2 ⟨n2.x, avgY⟩
  else if isNearVertical t dx dy then
    let avgX := (n1.x + n2.x) / 2
    (nodes.set e.1 ⟨avgX, n1.y⟩).set e.2 ⟨avgX, n2.y⟩
  else
    nodes

/-- The whole snap pass: `graph.edges.forEach(...)` mutating the node
array in place, modelled as a left fold over the edge list. -/
def rectifyNodes (t : ℚ) (nodes : List Point) (edges : List (ℕ × ℕ)) : List Point :=
  edges.foldl (rectifyStep t) nodes

/-- The classification the snap pass actually used for edge `i`: computed
in the node state reached after processing edges `0, …, i-1`. -/
def classifiedNearHorizontal (t : ℚ) (nodes : List Point) (edges : List (ℕ × ℕ)) (i : ℕ) :
    Bool :=
  let s := rectifyNodes t nodes (edges.take i)
  let e := edges.getD i (0, 0)
  let n1 := s.getD e.1 pzero
  let n2 := s.getD e.2 pzero
  isNearHorizontal t (n2.x - n1.x) (n2.y - n1.y)

/-- Near-vertical classification as the snap pass used it for edge `i`:
the source tests vertical only in the `else` branch, so an edge counts as
classified near-vertical only when it was not near-horizontal. -/
def classifiedNearVertical (t : ℚ) (nodes : List Point) (edges : List (ℕ × ℕ)) (i : ℕ) :
    Bool :=
  let s := rectifyNodes t nodes (edges.take i)
  let e := edges.getD i (0, 0)
  let n1 := s.getD e.1 pzero
  let n2 := s.getD e.2 pzero
  !isNearHorizontal t (n2.x - n1.x) (n2.y - n1.y) &&
    isNearVertical t (n2.x - n1.x) (n2.y - n1.y)

/-! ### Edge deduplication (lines 535-542) -/

/-- The unordered key `[min, max].join('-')` used by the source's `Map`:
distinct `(min, max)` pairs give distinct key strings, so the pair itself
is the faithful key. -/
def edgeKey (e : ℕ × ℕ) : ℕ × ℕ := (min e.1 e.2, max e.1 e.2)

/-- `Map.set` semantics of JavaScript: updating an existing key keeps its
insertion position, a fresh key is appended. -/
def mapSet (m : List ((ℕ × ℕ) × (ℕ × ℕ))) (k : ℕ × ℕ) (v : ℕ × ℕ) :
    List ((ℕ × ℕ) × (ℕ × ℕ)) :=
  if m.any (fun kv => kv.1 = k) then
    m.map (fun kv => if kv.1 = k then (k, v) else kv)
  else
    m ++ [(k, v)]

/-- The deduplication step: insert every edge keyed by its unordered node
pair (last write wins), then read the values back in insertion order
(`Array.from(uniqueEdges.values())`). -/
def dedupEdges (edges : List (ℕ × ℕ)) : List (ℕ × ℕ) :=
  (edges.foldl (fun m e => mapSet m (edgeKey e) e) []).map Prod.snd

/-- The resulting wall graph `{nodes, edges}`. -/
structure WallGraph where
  nodes : List Point
  edges : List (ℕ × ℕ)
deriving DecidableEq, Repr

/-- `createWallGraph(wallPaths)` from the source: build, snap, dedup. -/
def createWallGraph (c2 t : ℚ) (strokes : List (List Point)) : WallGraph :=
  let s := buildGraph c2 strokes
  { nodes := rectifyNodes t s.nodes s.edges
    edges := dedupEdges s.edges }

/-! ### DoorProjector (`findDoors`, lines 551-631) -/

/-- The value returned by `distanceToSegment`.  In the degenerate branch
(`lengthSquared === 0`) the source returns a **plain number**
(`Math.sqrt(...)`), while in the main branch it returns an object
`{distance, projected}`; the two shapes are distinguished here because
the caller reads `.distance`, which on a plain number is `undefined`.
Distances are stored squared (see the file header). -/
inductive DistResult where
  | bare (dSq : ℚ)
  | proj (dSq : ℚ) (projected : Point)
deriving DecidableEq, Repr

/-- `distanceToSegment(point, lineStart, lineEnd)` from the source. -/
def distanceToSegment (point lineStart lineEnd : Point) : DistResult :=
  let dx := lineEnd.x - lineStart.x
  let dy := lineEnd.y - lineStart.y
  let lengthSquared := dx * dx + dy * dy
  if lengthSquared = 0 then
    .bare (distSq point lineStart)
  else
    let t0 := ((point.x - lineStart.x) * dx + (point.y - lineStart.y) * dy) / lengthSquared
    let tc := max 0 (min 1 t0)
    let projected : Point := ⟨lineStart.x + tc * dx, lineStart.y + tc * dy⟩
    .proj (distSq point projected) projected

/-- One iteration of the loop in `snapToNearestEdge`.  The state is
`(minDistance, snappedPoint)` with `none` standing for the initial
`Infinity`.  When `distanceToSegment` returned a plain number, the
caller's `result.distance` is `undefined` and the JavaScript comparison
`undefined < minDistance` is `false`, so the state is left unchanged. -/
def snapStep (nodes : List Point) (point : Point) (st : Option ℚ × Point) (e : ℕ × ℕ) :
    Option ℚ × Point :=
  let n1 := nodes.getD e.1 pzero
  let n2 := nodes.getD e.2 pzero
  match distanceToSegment point n1 n2 with
  | .bare _ => st
  | .proj dSq p =>
    match st.1 with
    | none => (some dSq, p)
    | some m => if dSq < m then (some dSq, p) else st

/-- `snapToNearestEdge(point)` from the source: minimize over all edges,
starting from `minDistance = Infinity`, `snappedPoint = point`. -/
def snapToNearestEdge (g : WallGraph) (point : Point) : Point :=
  (g.edges.foldl (snapStep g.nodes point) (none, point)).2

/-- A door record `{start, end, original}`; `original` is the pair of
pre-snap stroke endpoints. -/
structure Door where
  start : Point
  endPt : Point
  original : Point × Point
deriving DecidableEq, Repr

/-- Processing of one door path: skipped unless it has at least two
segment points; otherwise its first and last raw points are snapped. -/
def doorOfPath (g : WallGraph) (path : List Point) : Option Door :=
  if path.length < 2 then none
  else
    let startPoint := path.headD pzero
    let endPoint := path.getLastD pzero
    some
      { start := snapToNearestEdge g startPoint
        endPt := snapToNearestEdge g endPoint
        original := (startPoint, endPoint) }

/-- `findDoors(doorPaths, graph)` from the source. -/
def findDoors (doorPaths : List (List Point)) (g : WallGraph) : List Door :=
  doorPaths.filterMap (doorOfPath g)

/-! ### ScaleNormalizer (`scaleToRealWorld`, lines 363-399) and the
scaling decision in `send` (lines 204-215) -/

/-- The record `{wallGraph, doors, scaleFactor}` returned by
`scaleToRealWorld`. -/
structure ScaleResult where
  wallGraph : WallGraph
  doors : List Door
  scaleFactor : ℚ
deriving DecidableEq, Repr

/-- `scaleToRealWorld(wallGraph, doors, dimensionValue, boundingBoxLength)`
from the source.  Note that the source computes
`const scaleFactor = 12 / boundingBoxLength`: the numerator is the
literal `12`, and the `dimensionValue` parameter is used only inside a
`console.log` string.  (Here `12 / 0 = 0` by the ℚ convention, whereas
the JavaScript division yields `Infinity`; no theorem below depends on
the value of the factor at a zero length, only on scaling not being
skipped there.) -/
def scaleToRealWorld (wallGraph : WallGraph) (doors : List Door)
    (dimensionValue boundingBoxLength : ℚ) : ScaleResult :=
  let scaleFactor := 12 / boundingBoxLength
  { wallGraph :=
      { nodes := wallGraph.nodes.map (fun node => ⟨node.x * scaleFactor, node.y * scaleFactor⟩)
        edges := wallGraph.edges }
    doors := doors.map (fun door =>
      { start := ⟨door.start.x * scaleFactor, door.start.y * scaleFactor⟩
        endPt := ⟨door.endPt.x * scaleFactor, door.endPt.y * scaleFactor⟩
        original := door.original })
    scaleFactor := scaleFactor }

/-- The scaling decision inside `send`:
`if (dimensionData && dimensionData.dimension_value) { ... scaleToRealWorld ... }`.
The recognized dimension value is `none` when no dimension data came
back; the JavaScript truthiness test also skips a recognized value of
`0`.  The reference length is **not** consulted by the guard. -/
def sendScale (dimValue : Option ℚ) (length : ℚ) (g : WallGraph) (doors : List Door) :
    WallGraph × List Door :=
  match dimValue with
  | none => (g, doors)
  | some d =>
    if d = 0 then (g, doors)
    else
      let scaled := scaleToRealWorld g doors d length
      (scaled.wallGraph, scaled.doors)

/-! ## Helper lemmas -/

/-- Fold invariant principle used throughout: a property preserved by
every step of a left fold holds of the result. -/
theorem foldl_inv {α β : Type} {P : α → Prop} (f : α → β → α) :
    ∀ (l : List β) (s : α), P s → (∀ a b, b ∈ l → P a → P (f a b)) →
      P (l.foldl f s)
  | [], _, h0, _ => h0
  | b :: l, s, h0, hstep =>
    foldl_inv f l (f s b) (hstep s b (List.mem_cons_self b l) h0)
      (fun a c hc ha => hstep a c (List.mem_cons_of_mem b hc) ha)

theorem rcpAux_single (c2 : ℚ) (prev current : Point) :
    rcpAux c2 prev [current] = [current] := rfl

theorem rcpAux_cons_cons (c2 : ℚ) (prev current next : Point) (rs : List Point) :
    rcpAux c2 prev (current :: next :: rs) =
      if areColinear c2 prev current next then rcpAux c2 prev (next :: rs)
      else current :: rcpAux c2 current (next :: rs) := by
  show (if (next :: rs).isEmpty then [current]
    else if areColinear c2 prev current ((next :: rs).headD pzero) then
      rcpAux c2 prev (next :: rs)
    else current :: rcpAux c2 current (next :: rs)) = _
  simp

theorem rcpAux_length (c2 : ℚ) :
    ∀ (l : List Point) (prev : Point), (rcpAux c2 prev l).length ≤ l.length := by
  intro l
  induction l with
  | nil => intro prev; simp [rcpAux]
  | cons current rest ih =>
    intro prev
    cases rest with
    | nil => simp [rcpAux_single]
    | cons next rs =>
      rw [rcpAux_cons_cons]
      by_cases hc : areColinear c2 prev current next = true
      · rw [if_pos hc]
        exact le_trans (ih prev) (by simp)
      · rw [if_neg hc]
        exact Nat.succ_le_succ (ih current)

theorem rcpAux_ne_nil (c2 : ℚ) :
    ∀ (l : List Point) (prev : Point), l ≠ [] → rcpAux c2 prev l ≠ [] := by
  intro l
  induction l with
  | nil => intro prev h; exact absurd rfl h
  | cons current rest ih =>
    intro prev _
    cases rest with
    | nil => simp [rcpAux_single]
    | cons next rs =>
      rw [rcpAux_cons_cons]
      by_cases hc : areColinear c2 prev current next = true
      · rw [if_pos hc]
        exact ih prev (by simp)
      · rw [if_neg hc]
        simp

theorem rcpAux_getLastQ (c2 : ℚ) :
    ∀ (l : List Point) (prev : Point), l ≠ [] →
      (rcpAux c2 prev l).getLast? = l.getLast? := by
  intro l
  induction l with
  | nil => intro prev h; exact absurd rfl h
  | cons current rest ih =>
    intro prev _
    cases rest with
    | nil => simp [rcpAux_single]
    | cons next rs =>
      rw [rcpAux_cons_cons]
      by_cases hc : areColinear c2 prev current next = true
      · rw [if_pos hc, ih prev (by simp)]
        exact (List.getLast?_cons_cons ..).symm
      · rw [if_neg hc]
        obtain ⟨y, ys, hys⟩ :=
          List.exists_cons_of_ne_nil (rcpAux_ne_nil c2 (next :: rs) current (by simp))
        rw [hys, List.getLast?_cons_cons, ← hys, ih current (by simp)]
        exact (List.getLast?_cons_cons ..).symm

theorem removeColinearPoints_of_short (c2 : ℚ) (points : List Point)
    (h : points.length ≤ 2) : removeColinearPoints c2 points = points := by
  simp [removeColinearPoints, h]

theorem removeColinearPoints_length (c2 : ℚ) (points : List Point) :
    (removeColinearPoints c2 points).length ≤ points.length := by
  unfold removeColinearPoints
  by_cases h : points.length ≤ 2
  · simp [h]
  · simp only [h, if_false]
    cases points with
    | nil => simp
    | cons p0 rest =>
      simp only [List.length_cons]
      exact Nat.succ_le_succ (rcpAux_length c2 rest p0)

theorem removeColinearPoints_headQ (c2 : ℚ) (points : List Point) :
    (removeColinearPoints c2 points).head? = points.head? := by
  unfold removeColinearPoints
  by_cases h : points.length ≤ 2
  · simp [h]
  · simp only [h, if_false]
    cases points with
    | nil => simp
    | cons p0 rest => simp

theorem removeColinearPoints_cons_eq (c2 : ℚ) (p0 : Point) (rest : List Point)
    (h : ¬(p0 :: rest).length ≤ 2) :
    removeColinearPoints c2 (p0 :: rest) = p0 :: rcpAux c2 p0 rest := by
  unfold removeColinearPoints
  rw [if_neg h]

theorem removeColinearPoints_getLastQ (c2 : ℚ) (points : List Point) :
    (removeColinearPoints c2 points).getLast? = points.getLast? := by
  by_cases h : points.length ≤ 2
  · rw [removeColinearPoints_of_short c2 points h]
  · cases points with
    | nil => simp at h
    | cons p0 rest =>
      have hrest : rest ≠ [] := by
        intro hn
        rw [hn] at h
        simp at h
      rw [removeColinearPoints_cons_eq c2 p0 rest h]
      obtain ⟨y, ys, hys⟩ :=
        List.exists_cons_of_ne_nil (rcpAux_ne_nil c2 rest p0 hrest)
      rw [hys, List.getLast?_cons_cons, ← hys, rcpAux_getLastQ c2 rest p0 hrest]
      obtain ⟨z, zs, hzs⟩ := List.exists_cons_of_ne_nil hrest
      rw [hzs, List.getLast?_cons_cons]

theorem areColinear_of_zero_vector (c2 : ℚ) (p q r : Point)
    (h : q = p ∨ q = r) : areColinear c2 p q r = true := by
  rcases h with h | h <;> subst h <;> simp [areColinear]

/-! ## Claim C7 -/

/-- Claim C7: for every input point list, the simplifier returns lists of
at most 2 points unchanged; otherwise the output keeps the first and last
input points and is no longer than the input; and an interior point with
a zero-length adjacent vector (coincident with the previous retained or
the next raw point) is treated as colinear, a colinear interior point
being dropped. -/
theorem simplifier_contract (c2 : ℚ) (points : List Point) :
    (points.length ≤ 2 → removeColinearPoints c2 points = points) ∧
    (removeColinearPoints c2 points).head? = points.head? ∧
    (removeColinearPoints c2 points).getLast? = points.getLast? ∧
    (removeColinearPoints c2 points).length ≤ points.length ∧
    (∀ p q r : Point, q = p ∨ q = r → areColinear c2 p q r = true) ∧
    (∀ (prev current next : Point) (rs : List Point),
      areColinear c2 prev current next = true →
      rcpAux c2 prev (current :: next :: rs) = rcpAux c2 prev (next :: rs)) :=
  ⟨fun h => removeColinearPoints_of_short c2 points h,
   removeColinearPoints_headQ c2 points,
   removeColinearPoints_getLastQ c2 points,
   removeColinearPoints_length c2 points,
   fun p q r h => areColinear_of_zero_vector c2 p q r h,
   fun prev current next rs h => by rw [rcpAux_cons_cons, if_pos h]⟩

/-- Witness for C7 at concrete inputs: a 2-point list is returned
unchanged, and a middle point coincident with its predecessor is
colinear. -/
theorem simplifier_contract_witness :
    removeColinearPoints 0 [⟨0, 0⟩, ⟨1, 0⟩] = [⟨0, 0⟩, ⟨1, 0⟩] ∧
    areColinear 0 ⟨3, 4⟩ ⟨3, 4⟩ ⟨5, 5⟩ = true :=
  ⟨(simplifier_contract 0 [⟨0, 0⟩, ⟨1, 0⟩]).1 (by norm_num),
   (simplifier_contract 0 [⟨0, 0⟩, ⟨1, 0⟩]).2.2.2.2.1 ⟨3, 4⟩ ⟨3, 4⟩ ⟨5, 5⟩ (Or.inl rfl)⟩

/-! ## Claim C5 -/

/-- Claim C5 counterexample: the simplifier is not idempotent.  At
tolerance 45° (cosine squared `1/2`) the input
`[(0,0), (1,0), (2,2), (6,4)]` simplifies to `[(0,0), (1,0), (6,4)]`
(the bend at `(1,0)` exceeds the tolerance against the raw successor
`(2,2)`, while `(2,2)` is within tolerance of the line through `(1,0)`
and `(6,4)`), but a second pass drops `(1,0)` as well, because its bend
against the *retained* successor `(6,4)` is now within tolerance. -/
theorem simplifier_not_idempotent :
    removeColinearPoints (1/2)
        (removeColinearPoints (1/2) [⟨0, 0⟩, ⟨1, 0⟩, ⟨2, 2⟩, ⟨6, 4⟩]) ≠
      removeColinearPoints (1/2) [⟨0, 0⟩, ⟨1, 0⟩, ⟨2, 2⟩, ⟨6, 4⟩] := by
  have h1 : removeColinearPoints (1/2) [(⟨0, 0⟩ : Point), ⟨1, 0⟩, ⟨2, 2⟩, ⟨6, 4⟩] =
      [⟨0, 0⟩, ⟨1, 0⟩, ⟨6, 4⟩] := by
    norm_num [removeColinearPoints, rcpAux, areColinear, pzero]
  have h2 : removeColinearPoints (1/2) [(⟨0, 0⟩ : Point), ⟨1, 0⟩, ⟨6, 4⟩] =
      [⟨0, 0⟩, ⟨6, 4⟩] := by
    norm_num [removeColinearPoints, rcpAux, areColinear, pzero]
  rw [h1, h2]
  simp

/-- Claim C5 amended: a second pass of the simplifier on its own output
may remove further points (idempotence fails), but it still preserves the
first output's endpoints and never lengthens it. -/
theorem simplifier_second_pass_shrinks (c2 : ℚ) (points : List Point) :
    (removeColinearPoints c2 (removeColinearPoints c2 points)).length ≤
        (removeColinearPoints c2 points).length ∧
    (removeColinearPoints c2 (removeColinearPoints c2 points)).head? =
        (removeColinearPoints c2 points).head? ∧
    (removeColinearPoints c2 (removeColinearPoints c2 points)).getLast? =
        (removeColinearPoints c2 points).getLast? :=
  ⟨removeColinearPoints_length c2 (removeColinearPoints c2 points),
   removeColinearPoints_headQ c2 (removeColinearPoints c2 points),
   removeColinearPoints_getLastQ c2 (removeColinearPoints c2 points)⟩

/-! ## Claim C1 -/

/-- Claim C1 (code bug): the scale factor is hard-coded as
`12 / boundingBoxLength`; the `dimensionValue` parameter does not enter
the computation (it appears only in a log string that *claims* the
factor is `dimensionValue / boundingBoxLength`).  At the spec's
Example 5 input `dimensionValue = 24`, `referenceLengthPixels = 240`,
the code produces the factor `12/240 = 1/20`, not the specified
`24/240 = 1/10`, and node `(50,50)` becomes `(5/2, 5/2)`, not `(5,5)`. -/
theorem scaleFactor_hardcoded_twelve :
    (∀ (g : WallGraph) (doors : List Door) (dv len : ℚ),
      (scaleToRealWorld g doors dv len).scaleFactor = 12 / len) ∧
    (scaleToRealWorld ⟨[⟨50, 50⟩], []⟩ [] 24 240).scaleFactor = 1 / 20 ∧
    (scaleToRealWorld ⟨[⟨50, 50⟩], []⟩ [] 24 240).wallGraph.nodes = [⟨5/2, 5/2⟩] ∧
    ((1 : ℚ) / 20) ≠ 24 / 240 := by
  refine ⟨fun g doors dv len => rfl, ?_, ?_, by norm_num⟩
  · norm_num [scaleToRealWorld]
  · norm_num [scaleToRealWorld]

/-! ## Claim C4 -/

/-- Claim C4 counterexample: with a recognized dimension value of `24`
and a reference length of `0`, the pipeline does **not** skip scaling:
the guard only checks the dimension value, so `scaleToRealWorld` runs and
divides by the zero length, and the returned coordinates are not the
unscaled pixel coordinates.  (In JavaScript `12 / 0` is `Infinity` and
node `(50,50)` becomes `(Infinity, Infinity)`; under the ℚ convention
`12 / 0 = 0` it becomes `(0, 0)`; either way the output differs from the
unscaled input, refuting the claim.) -/
theorem zero_length_not_guarded :
    sendScale (some 24) 0 ⟨[⟨50, 50⟩], []⟩ [] ≠ (⟨[⟨50, 50⟩], []⟩, []) := by
  intro h
  have h2 := congrArg (fun r => r.1.nodes) h
  norm_num [sendScale, scaleToRealWorld] at h2

/-- Claim C4 amended: scaling is skipped exactly when the recognized
dimension value is absent or zero (JavaScript truthiness of
`dimensionData.dimension_value`); the reference length is never
consulted, so a zero reference length still triggers scaling and the
division by zero it entails. -/
theorem scaling_skipped_only_on_missing_dimension (d len : ℚ) (g : WallGraph)
    (doors : List Door) :
    sendScale none len g doors = (g, doors) ∧
    sendScale (some 0) len g doors = (g, doors) ∧
    (d ≠ 0 → sendScale (some d) len g doors =
      ((scaleToRealWorld g doors d len).wallGraph, (scaleToRealWorld g doors d len).doors)) :=
  ⟨rfl, by simp [sendScale], fun h => by simp [sendScale, h]⟩

/-- Witness for the amended C4 at a concrete input with a zero reference
length: the dimension value `24` is nonzero, so scaling runs even though
the length is `0`. -/
theorem scaling_skipped_only_on_missing_dimension_witness :
    sendScale (some 24) 0 ⟨[⟨50, 50⟩], []⟩ [] =
      ((scaleToRealWorld ⟨[⟨50, 50⟩], []⟩ [] 24 0).wallGraph,
       (scaleToRealWorld ⟨[⟨50, 50⟩], []⟩ [] 24 0).doors) :=
  (scaling_skipped_only_on_missing_dimension 24 0 ⟨[⟨50, 50⟩], []⟩ []).2.2 (by norm_num)

/-! ## Claim C6 -/

/-- Claim C6 (code bug): a zero-length wall edge can never be selected
as a snap target.  `distanceToSegment` does compute the point-to-point
distance in the degenerate branch, but it returns it as a plain number
instead of a `{distance, projected}` object; the caller
`snapToNearestEdge` reads `result.distance`, which is then `undefined`,
and `undefined < minDistance` is `false`, so the degenerate edge never
updates the minimum.  At the failing input — door endpoint `(0,0)`
against a graph whose only edge joins two nodes both at `(10,0)` — the
endpoint stays at `(0,0)` instead of snapping to `(10,0)`. -/
theorem degenerate_edge_never_selected :
    distanceToSegment ⟨0, 0⟩ ⟨10, 0⟩ ⟨10, 0⟩ = .bare 100 ∧
    snapToNearestEdge ⟨[⟨10, 0⟩, ⟨10, 0⟩], [(0, 1)]⟩ ⟨0, 0⟩ = ⟨0, 0⟩ := by
  constructor
  · norm_num [distanceToSegment, distSq]
  · norm_num [snapToNearestEdge, snapStep, distanceToSegment, distSq, pzero]

/-! ## GraphBuilder invariants (claims C8, C9) -/

/-- All edges recorded so far join distinct node indices. -/
def EdgesOk (s : BuildState) : Prop := ∀ e ∈ s.edges, e.1 ≠ e.2

theorem addSegment_edgesOk (s : BuildState) (p1 p2 : Point) (h : EdgesOk s) :
    EdgesOk (addSegment s p1 p2) := by
  intro e he
  simp only [addSegment] at he
  by_cases hne : (addPoint s.nodes p1).1 ≠ (addPoint (addPoint s.nodes p1).2 p2).1
  · rw [if_pos hne] at he
    rcases List.mem_append.1 he with h1 | h1
    · exact h e h1
    · rcases List.mem_singleton.1 h1 with rfl
      exact hne
  · rw [if_neg hne] at he
    exact h e he

theorem addStrokePairs_edgesOk :
    ∀ (l : List Point) (s : BuildState), EdgesOk s → EdgesOk (addStrokePairs s l) := by
  intro l
  induction l with
  | nil => intro s h; exact h
  | cons p1 rest ih =>
    intro s h
    cases rest with
    | nil => exact h
    | cons p2 rs => exact ih (addSegment s p1 p2) (addSegment_edgesOk s p1 p2 h)

theorem buildGraph_edgesOk (c2 : ℚ) (strokes : List (List Point)) :
    EdgesOk (buildGraph c2 strokes) := by
  unfold buildGraph
  exact foldl_inv _ strokes ⟨[], [], []⟩ (by intro e he; simp at he)
    (fun s stroke _ hs => addStrokePairs_edgesOk (removeColinearPoints c2 stroke) s hs)

theorem mapSet_mem (m : List ((ℕ × ℕ) × (ℕ × ℕ))) (k v : ℕ × ℕ) :
    ∀ kv ∈ mapSet m k v, kv ∈ m ∨ kv = (k, v) := by
  intro kv hkv
  unfold mapSet at hkv
  by_cases hany : m.any (fun kv => kv.1 = k) = true
  · rw [if_pos hany] at hkv
    obtain ⟨kv0, hkv0, hupd⟩ := List.mem_map.1 hkv
    by_cases hk : kv0.1 = k
    · right
      rw [if_pos hk] at hupd
      exact hupd.symm
    · left
      rw [if_neg hk] at hupd
      exact hupd ▸ hkv0
  · rw [if_neg hany] at hkv
    rcases List.mem_append.1 hkv with h1 | h1
    · exact Or.inl h1
    · exact Or.inr (List.mem_singleton.1 h1)

theorem dedupEdges_subset (edges : List (ℕ × ℕ)) :
    ∀ e ∈ dedupEdges edges, e ∈ edges := by
  intro e he
  unfold dedupEdges at he
  obtain ⟨kv, hkv, rfl⟩ := List.mem_map.1 he
  have hinv : ∀ kv ∈ (edges.foldl (fun m e => mapSet m (edgeKey e) e) []), kv.2 ∈ edges := by
    refine foldl_inv
      (P := fun m : List ((ℕ × ℕ) × (ℕ × ℕ)) => ∀ kv ∈ m, kv.2 ∈ edges)
      _ edges [] (by simp) ?_
    intro m b hb hm kv hkv
    rcases mapSet_mem m (edgeKey b) b kv hkv with h1 | h1
    · exact hm kv h1
    · rw [h1]
      exact hb
  exact hinv kv hkv

/-- Claim C8: every edge of a built graph joins two distinct node
indices — candidate edges whose endpoints resolve to the same index are
discarded, and deduplication only keeps existing edges. -/
theorem built_graph_no_self_loops (c2 t : ℚ) (strokes : List (List Point)) :
    ∀ e ∈ (createWallGraph c2 t strokes).edges, e.1 ≠ e.2 := by
  intro e he
  have hsub : e ∈ (buildGraph c2 strokes).edges := by
    have : (createWallGraph c2 t strokes).edges = dedupEdges (buildGraph c2 strokes).edges := rfl
    rw [this] at he
    exact dedupEdges_subset _ e he
  exact buildGraph_edgesOk c2 strokes e hsub

/-- Witness for C8: the single-stroke input `[(0,0), (100,0)]` produces
the single edge `(0, 1)`, whose endpoints differ. -/
theorem built_graph_no_self_loops_witness :
    ((0, 1) : ℕ × ℕ).1 ≠ ((0, 1) : ℕ × ℕ).2 :=
  built_graph_no_self_loops 0 0 [[⟨0, 0⟩, ⟨100, 0⟩]] (0, 1) (by
    norm_num [createWallGraph, buildGraph, addStrokePairs, addSegment, addPoint,
      findNode, removeColinearPoints, distSq, mergeDistance, dedupEdges, mapSet, edgeKey])

/-- Invariant of the deduplication `Map`: the stored keys are pairwise
distinct and every stored value hashes to its own key. -/
def KeyInv (m : List ((ℕ × ℕ) × (ℕ × ℕ))) : Prop :=
  (m.map Prod.fst).Nodup ∧ ∀ kv ∈ m, edgeKey kv.2 = kv.1

theorem mapSet_keyInv (m : List ((ℕ × ℕ) × (ℕ × ℕ))) (k v : ℕ × ℕ)
    (hv : edgeKey v = k) (h : KeyInv m) : KeyInv (mapSet m k v) := by
  unfold mapSet
  by_cases hany : m.any (fun kv => kv.1 = k) = true
  · rw [if_pos hany]
    constructor
    · have hfst : (m.map (fun kv => if kv.1 = k then (k, v) else kv)).map Prod.fst =
          m.map Prod.fst := by
        rw [List.map_map]
        refine List.map_congr_left ?_
        intro kv _
        by_cases hk : kv.1 = k
        · simp [hk]
        · simp [hk]
      rw [hfst]
      exact h.1
    · intro kv hkv
      obtain ⟨kv0, hkv0, hupd⟩ := List.mem_map.1 hkv
      by_cases hk : kv0.1 = k
      · rw [if_pos hk] at hupd
        rw [← hupd]
        exact hv
      · rw [if_neg hk] at hupd
        rw [← hupd]
        exact h.2 kv0 hkv0
  · rw [if_neg hany]
    constructor
    · rw [List.map_append]
      refine h.1.append (by simp) ?_
      intro a ha hb
      simp only [List.map_cons, List.map_nil, List.mem_singleton] at hb
      subst hb
      obtain ⟨kv0, hkv0, hk⟩ := List.mem_map.1 ha
      rw [Bool.not_eq_true, List.any_eq_false] at hany
      exact hany kv0 hkv0 (by simp [hk])
    · intro kv hkv
      rcases List.mem_append.1 hkv with h1 | h1
      · exact h.2 kv h1
      · rcases List.mem_singleton.1 h1 with rfl
        exact hv

theorem dedupEdges_pairwise (edges : List (ℕ × ℕ)) :
    (dedupEdges edges).Pairwise (fun e eP => edgeKey e ≠ edgeKey eP) := by
  unfold dedupEdges
  have hinv : KeyInv (edges.foldl (fun m e => mapSet m (edgeKey e) e) []) := by
    refine foldl_inv (P := KeyInv) _ edges [] ⟨by simp, by simp⟩ ?_
    intro m b _ hm
    exact mapSet_keyInv m (edgeKey b) b rfl hm
  rw [List.pairwise_map]
  have hfst : (List.map Prod.fst (edges.foldl (fun m e => mapSet m (edgeKey e) e) [])).Pairwise
      (· ≠ ·) := hinv.1
  rw [List.pairwise_map] at hfst
  refine hfst.imp_of_mem ?_
  intro a b ha hb hne
  rw [hinv.2 a ha, hinv.2 b hb]
  exact hne

/-- Claim C9: after the deduplication step that follows rectification, no
two entries of the graph's edge list reference the same unordered pair of
node indices. -/
theorem built_graph_edges_unique (c2 t : ℚ) (strokes : List (List Point)) :
    ((createWallGraph c2 t strokes).edges).Pairwise
      (fun e eP => edgeKey e ≠ edgeKey eP) :=
  dedupEdges_pairwise (buildGraph c2 strokes).edges

/-! ## Claim C2 -/

theorem distSq_self (p : Point) : distSq p p = 0 := by
  simp [distSq]

theorem findNode_some (p : Point) :
    ∀ (nodes : List Point) (i : ℕ), findNode p nodes = some i →
      i < nodes.length ∧ distSq (nodes.getD i pzero) p < mergeDistance * mergeDistance := by
  intro nodes
  induction nodes with
  | nil => intro i h; simp [findNode] at h
  | cons n rest ih =>
    intro i h
    unfold findNode at h
    by_cases hd : distSq n p < mergeDistance * mergeDistance
    · rw [if_pos hd] at h
      rcases Option.some.injEq .. ▸ h with rfl
      exact ⟨by simp, by simpa using hd⟩
    · rw [if_neg hd] at h
      obtain ⟨j, hj, rfl⟩ := Option.map_eq_some'.1 h
      obtain ⟨hlt, hdist⟩ := ih j hj
      exact ⟨by simpa using hlt, by simpa using hdist⟩

theorem addPoint_spec (nodes : List Point) (p : Point) :
    nodes.length ≤ (addPoint nodes p).2.length ∧
    (∀ j, j < nodes.length → (addPoint nodes p).2.getD j pzero = nodes.getD j pzero) ∧
    (addPoint nodes p).1 < (addPoint nodes p).2.length ∧
    distSq ((addPoint nodes p).2.getD (addPoint nodes p).1 pzero) p <
      mergeDistance * mergeDistance := by
  unfold addPoint
  cases h : findNode p nodes with
  | some i =>
    obtain ⟨hlt, hdist⟩ := findNode_some p nodes i h
    exact ⟨le_refl _, fun j _ => rfl, hlt, hdist⟩
  | none =>
    refine ⟨by simp, ?_, by simp, ?_⟩
    · intro j hj
      simp only
      rw [List.getD_eq_getElem _ _ (by simp [Nat.lt_succ_of_lt hj] : j < (nodes ++ [p]).length),
        List.getElem_append_left hj, List.getD_eq_getElem _ _ hj]
    · simp only
      rw [List.getD_eq_getElem _ _ (by simp : nodes.length < (nodes ++ [p]).length),
        List.getElem_concat_length _ _ _ rfl, distSq_self]
      norm_num [mergeDistance]

/-- The node-assignment invariant: every raw point ever resolved by the
builder got an in-range node index whose node lies strictly within
`mergeDistance` of the point. -/
def AssignOk (s : BuildState) : Prop :=
  ∀ pi ∈ s.assigns, pi.2 < s.nodes.length ∧
    distSq (s.nodes.getD pi.2 pzero) pi.1 < mergeDistance * mergeDistance

theorem addSegment_assignOk (s : BuildState) (p1 p2 : Point) (h : AssignOk s) :
    AssignOk (addSegment s p1 p2) := by
  obtain ⟨hlen1, hstable1, hi1, hd1⟩ := addPoint_spec s.nodes p1
  obtain ⟨hlen2, hstable2, hi2, hd2⟩ := addPoint_spec (addPoint s.nodes p1).2 p2
  intro pi hpi
  have hnodes : (addSegment s p1 p2).nodes = (addPoint (addPoint s.nodes p1).2 p2).2 := rfl
  simp only [addSegment, List.mem_append, List.mem_cons] at hpi
  rcases hpi with hold | h1 | h2 | h3
  · obtain ⟨hlt, hdist⟩ := h pi hold
    refine ⟨lt_of_lt_of_le hlt (hnodes ▸ le_trans hlen1 hlen2), ?_⟩
    rw [hnodes, hstable2 pi.2 (lt_of_lt_of_le hlt hlen1), hstable1 pi.2 hlt]
    exact hdist
  · subst h1
    refine ⟨lt_of_lt_of_le hi1 (hnodes ▸ hlen2), ?_⟩
    rw [hnodes, hstable2 _ hi1]
    exact hd1
  · subst h2
    exact ⟨hnodes ▸ hi2, hnodes ▸ hd2⟩
  · simp at h3

theorem addStrokePairs_assignOk :
    ∀ (l : List Point) (s : BuildState), AssignOk s → AssignOk (addStrokePairs s l) := by
  intro l
  induction l with
  | nil => intro s h; exact h
  | cons p1 rest ih =>
    intro s h
    cases rest with
    | nil => exact h
    | cons p2 rs => exact ih (addSegment s p1 p2) (addSegment_assignOk s p1 p2 h)

/-- Claim C2 counterexample input: three vertical two-point strokes at
`x = 0`, `x = 39` and `x = 78`.  The point `(39,0)` merges into the node
at `(0,0)` (index 0, distance 39 < 40), while `(78,0)` is 78 px from
that node and becomes the fresh node index 2 — yet `(39,0)` and `(78,0)`
are only 39 px apart. -/
def chainStrokes : List (List Point) :=
  [[⟨0, 0⟩, ⟨0, 100⟩], [⟨39, 0⟩, ⟨39, 100⟩], [⟨78, 0⟩, ⟨78, 100⟩]]

/-- Claim C2 counterexample: two raw (simplified) points closer than
`mergeDistance` that the builder assigns *different* node indices; the
greedy first-match merge is not transitive, so the claimed invariant
fails. -/
theorem merge_distance_invariant_fails :
    ((⟨39, 0⟩ : Point), (0 : ℕ)) ∈ (buildGraph 0 chainStrokes).assigns ∧
    ((⟨78, 0⟩ : Point), (2 : ℕ)) ∈ (buildGraph 0 chainStrokes).assigns ∧
    distSq ⟨39, 0⟩ ⟨78, 0⟩ < mergeDistance * mergeDistance ∧
    (0 : ℕ) ≠ 2 := by
  refine ⟨?_, ?_, by norm_num [distSq, mergeDistance], by norm_num⟩ <;>
    norm_num [buildGraph, chainStrokes, addStrokePairs, addSegment, addPoint,
      findNode, removeColinearPoints, distSq, mergeDistance]

/-- Claim C2 amended: the builder does not guarantee that two raw points
within `mergeDistance` of each other share a node index (see the
counterexample); what holds is that every raw (simplified) point is
assigned an in-range node index whose node lies strictly within
`mergeDistance` of the point — the first sufficiently close node in
creation order. -/
theorem node_assignment_within_merge_distance (c2 : ℚ) (strokes : List (List Point)) :
    ∀ pi ∈ (buildGraph c2 strokes).assigns,
      pi.2 < (buildGraph c2 strokes).nodes.length ∧
      distSq ((buildGraph c2 strokes).nodes.getD pi.2 pzero) pi.1 <
        mergeDistance * mergeDistance := by
  unfold buildGraph
  exact foldl_inv (P := AssignOk) _ strokes ⟨[], [], []⟩ (by intro pi hpi; simp at hpi)
    (fun s stroke _ hs => addStrokePairs_assignOk (removeColinearPoints c2 stroke) s hs)

/-- Witness for the amended C2: on a single two-point stroke, the first
point is assigned node index 0, which is in range and at distance 0. -/
theorem node_assignment_within_merge_distance_witness :
    (0 : ℕ) < (buildGraph 0 [[⟨0, 0⟩, ⟨0, 100⟩]]).nodes.length ∧
    distSq ((buildGraph 0 [[⟨0, 0⟩, ⟨0, 100⟩]]).nodes.getD 0 pzero) ⟨0, 0⟩ <
      mergeDistance * mergeDistance :=
  node_assignment_within_merge_distance 0 [[⟨0, 0⟩, ⟨0, 100⟩]] (⟨0, 0⟩, 0) (by
    norm_num [buildGraph, addStrokePairs, addSegment, addPoint, findNode,
      removeColinearPoints, distSq, mergeDistance])

/-! ## Claim C3 -/

theorem getD_set_set_fst (s : List Point) (i j : ℕ) (a b : Point)
    (hi : i < s.length) (hij : j ≠ i) :
    ((s.set i a).set j b).getD i pzero = a := by
  rw [List.getD_eq_getElem _ _ (by simpa using hi)]
  rw [List.getElem_set_ne hij]
  rw [List.getElem_set_self]

theorem getD_set_set_snd (s : List Point) (i j : ℕ) (a b : Point)
    (hj : j < s.length) :
    ((s.set i a).set j b).getD j pzero = b := by
  rw [List.getD_eq_getElem _ _ (by simpa using hj)]
  rw [List.getElem_set_self]

theorem rectifyStep_length (t : ℚ) (nodes : List Point) (e : ℕ × ℕ) :
    (rectifyStep t nodes e).length = nodes.length := by
  unfold rectifyStep
  dsimp only
  split
  · simp
  · split
    · simp
    · rfl

theorem rectifyNodes_length (t : ℚ) (nodes : List Point) (edges : List (ℕ × ℕ)) :
    (rectifyNodes t nodes edges).length = nodes.length := by
  unfold rectifyNodes
  exact foldl_inv (P := fun l : List Point => l.length = nodes.length) _ edges nodes rfl
    (fun l e _ hl => (rectifyStep_length t l e).trans hl)

theorem rectifyNodes_take_succ (t : ℚ) (nodes : List Point) (edges : List (ℕ × ℕ))
    (i : ℕ) (hi : i < edges.length) :
    rectifyNodes t nodes (edges.take (i + 1)) =
      rectifyStep t (rectifyNodes t nodes (edges.take i)) (edges.getD i (0, 0)) := by
  unfold rectifyNodes
  rw [List.take_succ, List.getElem?_eq_getElem hi]
  rw [List.foldl_append]
  rw [List.getD_eq_getElem _ _ hi]
  rfl

theorem rectifyStep_horizontal (t : ℚ) (s : List Point) (e : ℕ × ℕ)
    (h1 : e.1 < s.length) (h2 : e.2 < s.length)
    (hH : isNearHorizontal t ((s.getD e.2 pzero).x - (s.getD e.1 pzero).x)
      ((s.getD e.2 pzero).y - (s.getD e.1 pzero).y) = true) :
    ((rectifyStep t s e).getD e.1 pzero).y = ((rectifyStep t s e).getD e.2 pzero).y := by
  have hstep : rectifyStep t s e =
      (s.set e.1 ⟨(s.getD e.1 pzero).x, ((s.getD e.1 pzero).y + (s.getD e.2 pzero).y) / 2⟩).set
        e.2 ⟨(s.getD e.2 pzero).x, ((s.getD e.1 pzero).y + (s.getD e.2 pzero).y) / 2⟩ := by
    unfold rectifyStep
    rw [if_pos hH]
  rw [hstep]
  by_cases he : e.1 = e.2
  · rw [he]
  · rw [getD_set_set_fst s e.1 e.2 _ _ h1 (fun hne => he hne.symm),
      getD_set_set_snd s e.1 e.2 _ _ h2]

theorem rectifyStep_vertical (t : ℚ) (s : List Point) (e : ℕ × ℕ)
    (h1 : e.1 < s.length) (h2 : e.2 < s.length)
    (hH : isNearHorizontal t ((s.getD e.2 pzero).x - (s.getD e.1 pzero).x)
      ((s.getD e.2 pzero).y - (s.getD e.1 pzero).y) = false)
    (hV : isNearVertical t ((s.getD e.2 pzero).x - (s.getD e.1 pzero).x)
      ((s.getD e.2 pzero).y - (s.getD e.1 pzero).y) = true) :
    ((rectifyStep t s e).getD e.1 pzero).x = ((rectifyStep t s e).getD e.2 pzero).x := by
  have hstep : rectifyStep t s e =
      (s.set e.1 ⟨((s.getD e.1 pzero).x + (s.getD e.2 pzero).x) / 2, (s.getD e.1 pzero).y⟩).set
        e.2 ⟨((s.getD e.1 pzero).x + (s.getD e.2 pzero).x) / 2, (s.getD e.2 pzero).y⟩ := by
    unfold rectifyStep
    rw [if_neg (by simp only [hH]; exact Bool.false_ne_true), if_pos hV]
  rw [hstep]
  by_cases he : e.1 = e.2
  · rw [he]
  · rw [getD_set_set_fst s e.1 e.2 _ _ h1 (fun hne => he hne.symm),
      getD_set_set_snd s e.1 e.2 _ _ h2]

/-- Claim C3 counterexample: with `tan(snapTolerance°)` embedded as
`22/125 = 0.176` (the source tolerance 10° has `tan 10° ≈ 0.1763`), take
nodes `(0,0), (100,6), (200,0)` and edges `(0,1), (1,2)`.  Edge 0 is
classified near-horizontal (slope `6/100`, ≈ 3.4°) and its endpoints are
set to `y = 3`; but edge 1 is then also classified near-horizontal and
overwrites the shared node 1 with `y = 3/2`.  After the pass completes,
edge 0 — classified near-horizontal — has `y = 3` on node 0 but
`y = 3/2` on node 1, refuting the convergence claim. -/
theorem rectification_convergence_fails :
    classifiedNearHorizontal (22/125) [⟨0, 0⟩, ⟨100, 6⟩, ⟨200, 0⟩] [(0, 1), (1, 2)] 0 = true ∧
    ((rectifyNodes (22/125) [⟨0, 0⟩, ⟨100, 6⟩, ⟨200, 0⟩] [(0, 1), (1, 2)]).getD 0 pzero).y ≠
      ((rectifyNodes (22/125) [⟨0, 0⟩, ⟨100, 6⟩, ⟨200, 0⟩] [(0, 1), (1, 2)]).getD 1 pzero).y := by
  constructor
  · norm_num [classifiedNearHorizontal, rectifyNodes, isNearHorizontal, pzero]
  · norm_num [rectifyNodes, rectifyStep, isNearHorizontal, isNearVertical, pzero]

/-- Claim C3 amended: alignment holds immediately after the rectifier
processes an edge, not necessarily after the whole pass: right after the
step for edge `i`, an edge classified near-horizontal (in the node state
the pass actually used) has equal `y` on both endpoints, and an edge
classified near-vertical has equal `x`; a later edge sharing a node may
overwrite that node's coordinate again. -/
theorem rectified_edge_aligned_after_its_step (t : ℚ) (nodes : List Point)
    (edges : List (ℕ × ℕ)) (i : ℕ) (hi : i < edges.length)
    (h1 : (edges.getD i (0, 0)).1 < nodes.length)
    (h2 : (edges.getD i (0, 0)).2 < nodes.length) :
    (classifiedNearHorizontal t nodes edges i = true →
      ((rectifyNodes t nodes (edges.take (i + 1))).getD (edges.getD i (0, 0)).1 pzero).y =
        ((rectifyNodes t nodes (edges.take (i + 1))).getD (edges.getD i (0, 0)).2 pzero).y) ∧
    (classifiedNearVertical t nodes edges i = true →
      ((rectifyNodes t nodes (edges.take (i + 1))).getD (edges.getD i (0, 0)).1 pzero).x =
        ((rectifyNodes t nodes (edges.take (i + 1))).getD (edges.getD i (0, 0)).2 pzero).x) := by
  have hlen : (rectifyNodes t nodes (edges.take i)).length = nodes.length :=
    rectifyNodes_length t nodes (edges.take i)
  have h1' : (edges.getD i (0, 0)).1 < (rectifyNodes t nodes (edges.take i)).length :=
    hlen ▸ h1
  have h2' : (edges.getD i (0, 0)).2 < (rectifyNodes t nodes (edges.take i)).length :=
    hlen ▸ h2
  rw [rectifyNodes_take_succ t nodes edges i hi]
  constructor
  · intro hH
    exact rectifyStep_horizontal t _ _ h1' h2' hH
  · intro hV
    unfold classifiedNearVertical at hV
    rw [Bool.and_eq_true, Bool.not_eq_true'] at hV
    exact rectifyStep_vertical t _ _ h1' h2' hV.1 hV.2

/-- Witness for the amended C3: a single exactly horizontal edge
(nodes `(0,0)` and `(100,0)`, any tolerance `0`) is classified
near-horizontal and its endpoints agree on `y` after its step. -/
theorem rectified_edge_aligned_witness :
    ((rectifyNodes 0 [⟨0, 0⟩, ⟨100, 0⟩] ([(0, 1)].take 1)).getD 0 pzero).y =
      ((rectifyNodes 0 [⟨0, 0⟩, ⟨100, 0⟩] ([(0, 1)].take 1)).getD 1 pzero).y :=
  (rectified_edge_aligned_after_its_step 0 [⟨0, 0⟩, ⟨100, 0⟩] [(0, 1)] 0
      (by norm_num) (by norm_num) (by norm_num)).1
    (by norm_num [classifiedNearHorizontal, rectifyNodes, isNearHorizontal, pzero])

/-! ## Claim C10 -/

theorem snapToNearestEdge_of_no_edges (g : WallGraph) (point : Point)
    (h : g.edges = []) : snapToNearestEdge g point = point := by
  unfold snapToNearestEdge
  rw [h]
  rfl

theorem doorOfPath_eq_some (g : WallGraph) (path : List Point) (d : Door)
    (h : doorOfPath g path = some d) :
    2 ≤ path.length ∧
    d.start = snapToNearestEdge g (path.headD pzero) ∧
    d.endPt = snapToNearestEdge g (path.getLastD pzero) ∧
    d.original = (path.headD pzero, path.getLastD pzero) := by
  unfold doorOfPath at h
  by_cases hlen : path.length < 2
  · rw [if_pos hlen] at h
    exact absurd h (by simp)
  · rw [if_neg hlen] at h
    simp only [Option.some.injEq] at h
    subst h
    exact ⟨Nat.le_of_not_lt hlen, rfl, rfl, rfl⟩

/-- Claim C10: when the wall graph has no edges, each door's snapped
`start`/`end` equal its original endpoints (the minimization never
updates the initial `snappedPoint = point`); and for every graph, a
door's `original` field records the door stroke's first and last raw
points verbatim — `findDoors` stores them unsnapped and
`scaleToRealWorld` copies `original` through unscaled. -/
theorem doors_preserve_originals (doorPaths : List (List Point)) (g : WallGraph) :
    (g.edges = [] →
      ∀ d ∈ findDoors doorPaths g, d.start = d.original.1 ∧ d.endPt = d.original.2) ∧
    (∀ d ∈ findDoors doorPaths g, ∃ path ∈ doorPaths, 2 ≤ path.length ∧
      d.original = (path.headD pzero, path.getLastD pzero)) ∧
    (∀ (doors : List Door) (dv len : ℚ), ∀ d ∈ (scaleToRealWorld g doors dv len).doors,
      ∃ d0 ∈ doors, d.original = d0.original) := by
  refine ⟨?_, ?_, ?_⟩
  · intro hg d hd
    obtain ⟨path, _, hsome⟩ := List.mem_filterMap.1 hd
    obtain ⟨_, hstart, hend, horig⟩ := doorOfPath_eq_some g path d hsome
    rw [hstart, hend, horig, snapToNearestEdge_of_no_edges g _ hg,
      snapToNearestEdge_of_no_edges g _ hg]
    exact ⟨rfl, rfl⟩
  · intro d hd
    obtain ⟨path, hmem, hsome⟩ := List.mem_filterMap.1 hd
    obtain ⟨hlen, _, _, horig⟩ := doorOfPath_eq_some g path d hsome
    exact ⟨path, hmem, hlen, horig⟩
  · intro doors dv len d hd
    obtain ⟨d0, hd0, hmap⟩ := List.mem_map.1 hd
    exact ⟨d0, hd0, by rw [← hmap]⟩

/-- Witness for C10: a single door stroke `[(0,0), (50,0)]` against the
empty-edge graph yields a door whose snapped endpoints coincide with its
original endpoints. -/
theorem doors_preserve_originals_witness :
    (⟨⟨0, 0⟩, ⟨50, 0⟩, (⟨0, 0⟩, ⟨50, 0⟩)⟩ : Door).start =
        (⟨⟨0, 0⟩, ⟨50, 0⟩, (⟨0, 0⟩, ⟨50, 0⟩)⟩ : Door).original.1 ∧
      (⟨⟨0, 0⟩, ⟨50, 0⟩, (⟨0, 0⟩, ⟨50, 0⟩)⟩ : Door).endPt =
        (⟨⟨0, 0⟩, ⟨50, 0⟩, (⟨0, 0⟩, ⟨50, 0⟩)⟩ : Door).original.2 :=
  (doors_preserve_originals [[⟨0, 0⟩, ⟨50, 0⟩]] ⟨[], []⟩).1 rfl _
    (by norm_num [findDoors, doorOfPath, snapToNearestEdge, pzero])

end Bimshady
